/-
Verification of the `clust` messages content module.

Strings are modelled as `List Char`; Rust `str::find` is modelled by
`findSub`, which returns the index of the first occurrence of a pattern,
and slicing `text[a..b]` by `(text.take b).drop a`.  Rust `Result` is
modelled by `Except`, Rust `Option` by `Option`.

Source of truth: src/src/messages/content.rs.  Items of the crate that
are not among the provided sources (the error enums of the `error`
module, the `FunctionCalls` XML decoder, and the serialization macros)
are modelled from the specification; their doc comments say so.
-/
import Mathlib

set_option maxHeartbeats 1000000

/-- Start delimiter of a function-calls region (local `start_tag` of
`extract_first_function_calls` in content.rs). -/
def start_tag : List Char := "<function_calls>".data

/-- End delimiter of a function-calls region (local `end_tag` of
`extract_first_function_calls` in content.rs). -/
def end_tag : List Char := "</function_calls>".data

/-- Model of Rust `str::find(pat)`: index of the first occurrence of
`pat` in the haystack, or `none`. -/
def findSub (pat : List Char) : List Char → Option Nat
  | [] => if pat.isPrefixOf [] then some 0 else none
  | c :: rest =>
    if pat.isPrefixOf (c :: rest) then some 0
    else (findSub pat rest).map (· + 1)

/-- Embedding of `extract_first_function_calls` (content.rs, lines
139-154): find the first `start_tag`, find the first `end_tag` after it,
and return the slice from the start of `start_tag` through the end of
`end_tag`. -/
def extract_first_function_calls (text : List Char) : Option (List Char) :=
  match findSub start_tag text with
  | none => none
  | some start_index =>
    match findSub end_tag (text.drop (start_index + start_tag.length)) with
    | none => none
    | some i =>
      let end_index := i + start_index + start_tag.length
      some ((text.take (end_index + end_tag.length)).drop start_index)

/-- Embedding of `ContentType` (content.rs). -/
inductive ContentType
  | Text
  | Image
  | TextDelta
deriving DecidableEq, Repr

/-- Embedding of `ImageSourceType` (content.rs). -/
inductive ImageSourceType
  | Base64
deriving DecidableEq, Repr

/-- Embedding of `ImageMediaType` (content.rs). -/
inductive ImageMediaType
  | Jpeg
  | Png
  | Gif
  | Webp
deriving DecidableEq, Repr

/-- Embedding of `ImageContentSource` (content.rs). -/
structure ImageContentSource where
  _type : ImageSourceType
  media_type : ImageMediaType
  data : List Char
deriving DecidableEq, Repr

/-- Embedding of `ImageContentSource::base64` (content.rs). -/
def ImageContentSource.base64 (media_type : ImageMediaType)
    (data : List Char) : ImageContentSource :=
  { _type := ImageSourceType.Base64, media_type := media_type, data := data }

/-- Embedding of `TextContentBlock` (content.rs). -/
structure TextContentBlock where
  _type : ContentType
  text : List Char
deriving DecidableEq, Repr

/-- Embedding of `TextContentBlock::new` (content.rs). -/
def TextContentBlock.new (text : List Char) : TextContentBlock :=
  { _type := ContentType.Text, text := text }

/-- Embedding of `ImageContentBlock` (content.rs). -/
structure ImageContentBlock where
  _type : ContentType
  source : ImageContentSource
deriving DecidableEq, Repr

/-- Embedding of `ImageContentBlock::new` (content.rs). -/
def ImageContentBlock.new (source : ImageContentSource) : ImageContentBlock :=
  { _type := ContentType.Image, source := source }

/-- Embedding of `ContentBlock` (content.rs). -/
inductive ContentBlock
  | Text (block : TextContentBlock)
  | Image (block : ImageContentBlock)
deriving DecidableEq, Repr

/-- Embedding of `Content` (content.rs). -/
inductive Content
  | SingleText (text : List Char)
  | MultipleBlocks (blocks : List ContentBlock)
deriving DecidableEq, Repr

/-- Modelled from the spec: the `ContentFlatteningError` enum lives in the
crate's `error` module, which is not among the provided sources; its two
variants `Empty` and `NotFoundTargetBlock` are the ones content.rs uses
and the ones the specification names. -/
inductive ContentFlatteningError
  | Empty
  | NotFoundTargetBlock
deriving DecidableEq, Repr

/-- Embedding of `impl From<&str> for Content` (content.rs, lines 63-67). -/
def Content.from_text (text : List Char) : Content :=
  Content.SingleText text

/-- Embedding of `impl From<ImageContentSource> for Content` (content.rs,
lines 69-75): a one-element `MultipleBlocks` holding an image block. -/
def Content.from_image (image : ImageContentSource) : Content :=
  Content.MultipleBlocks [ContentBlock.Image (ImageContentBlock.new image)]

/-- Embedding of `Content::flatten_into_text` (content.rs, lines 91-102). -/
def Content.flatten_into_text :
    Content → Except ContentFlatteningError (List Char)
  | Content.SingleText text => Except.ok text
  | Content.MultipleBlocks block =>
    match block.head? with
    | some first =>
      match first with
      | ContentBlock.Text text => Except.ok text.text
      | _ => Except.error ContentFlatteningError.NotFoundTargetBlock
    | none => Except.error ContentFlatteningError.Empty

/-- Modelled from the spec: the decoded invocation record `Invoke`
(tool name plus a mapping from string keys to string values); its module
is not among the provided sources.  The mapping is modelled as the
association list of pairs in the order the decoder finds them. -/
structure Invoke where
  tool_name : List Char
  parameters : List (List Char × List Char)
deriving DecidableEq, Repr

/-- Modelled from the spec: the decoded structure `FunctionCalls` holding
one `Invoke`; its module is not among the provided sources. -/
structure FunctionCalls where
  invoke : Invoke
deriving DecidableEq, Repr

/-- Modelled from the spec: the structural decoding failure of the
`FunctionCalls` decoder ("a structural decoding failure when the span
exists but does not match the expected invoke/tool_name/parameters
shape"); the concrete error type is not among the provided sources. -/
inductive FunctionCallsDecodingError
  | InvalidStructure
deriving DecidableEq, Repr

/-- Modelled from the spec: the `FunctionCallsExcludingError` enum lives
in the crate's `error` module, which is not among the provided sources;
content.rs uses the `XmlNotFound` variant and converts flattening and
decoding failures into it via the question-mark operator. -/
inductive FunctionCallsExcludingError
  | ContentFlattening (error : ContentFlatteningError)
  | XmlNotFound
  | FunctionCallsDecoding (error : FunctionCallsDecodingError)
deriving DecidableEq, Repr

/-- Tag name of the `invoke` element. -/
def invokeTagName : List Char := "invoke".data

/-- Tag name of the `tool_name` element. -/
def toolNameTagName : List Char := "tool_name".data

/-- Tag name of the `parameters` element. -/
def parametersTagName : List Char := "parameters".data

/-- Opening tag text of a named pseudo-XML element. -/
def openTag (tag : List Char) : List Char := '<' :: (tag ++ ['>'])

/-- Closing tag text of a named pseudo-XML element. -/
def closeTag (tag : List Char) : List Char := '<' :: '/' :: (tag ++ ['>'])

/-- Content between the first opening tag and the first closing tag after
it, used by the spec-modelled decoder. -/
def extractTagContent (tag text : List Char) : Option (List Char) :=
  match findSub (openTag tag) text with
  | none => none
  | some s =>
    let rest := text.drop (s + (openTag tag).length)
    match findSub (closeTag tag) rest with
    | none => none
    | some e => some (rest.take e)

/-- Modelled from the spec: the leaf elements of `<parameters>`, "each
contributing one key/value pair (tag name → text content)", scanned left
to right; the fuel argument bounds the recursion. -/
def parseLeafParams : Nat → List Char → List (List Char × List Char)
  | 0, _ => []
  | Nat.succ fuel, text =>
    match findSub ['<'] text with
    | none => []
    | some i =>
      let afterOpen := text.drop (i + 1)
      match findSub ['>'] afterOpen with
      | none => []
      | some j =>
        let key := afterOpen.take j
        let rest := afterOpen.drop (j + 1)
        match findSub (closeTag key) rest with
        | none => []
        | some k =>
          (key, rest.take k) ::
            parseLeafParams fuel (rest.drop (k + (closeTag key).length))

/-- Modelled from the spec: `FunctionCalls::deserialize`, whose module is
not among the provided sources — "a small fixed-shape pseudo-XML document
with one `invoke` element containing `tool_name` and a `parameters`
element whose children are arbitrary-named leaf elements". -/
def FunctionCalls.deserialize (xml : List Char) :
    Except FunctionCallsDecodingError FunctionCalls :=
  match extractTagContent invokeTagName xml with
  | none => Except.error FunctionCallsDecodingError.InvalidStructure
  | some inv =>
    match extractTagContent toolNameTagName inv,
        extractTagContent parametersTagName inv with
    | some name, some params =>
      Except.ok
        { invoke :=
            { tool_name := name,
              parameters := parseLeafParams params.length params } }
    | _, _ => Except.error FunctionCallsDecodingError.InvalidStructure

/-- Embedding of `Content::flatten_into_image_source` (content.rs, lines
109-124). -/
def Content.flatten_into_image_source :
    Content → Except ContentFlatteningError ImageContentSource
  | Content.SingleText _ =>
    Except.error ContentFlatteningError.NotFoundTargetBlock
  | Content.MultipleBlocks block =>
    match block.head? with
    | some first =>
      match first with
      | ContentBlock.Image image => Except.ok image.source
      | _ => Except.error ContentFlatteningError.NotFoundTargetBlock
    | none => Except.error ContentFlatteningError.Empty

/-- Embedding of `Content::exclude_function_calls` (content.rs, lines
126-136): flatten to text, extract the first function-calls region, and
decode it, each stage short-circuiting on failure. -/
def Content.exclude_function_calls (c : Content) :
    Except FunctionCallsExcludingError FunctionCalls :=
  match c.flatten_into_text with
  | Except.error e =>
    Except.error (FunctionCallsExcludingError.ContentFlattening e)
  | Except.ok content =>
    match extract_first_function_calls content with
    | none => Except.error FunctionCallsExcludingError.XmlNotFound
    | some xml =>
      match FunctionCalls.deserialize xml with
      | Except.error e =>
        Except.error (FunctionCallsExcludingError.FunctionCallsDecoding e)
      | Except.ok function_calls => Except.ok function_calls

/-- Modelled from the spec: the `ImageMediaTypeParseError` enum lives in
the crate's `error` module, which is not among the provided sources; its
variants `NotSupported` (carrying the extension) and `NotFound` are the
ones content.rs uses and the ones the specification names. -/
inductive ImageMediaTypeParseError
  | NotSupported (extension : List Char)
  | NotFound
deriving DecidableEq, Repr

/-- Index of the last dot of a file name, or `none`. -/
def lastDotIdx : List Char → Option Nat
  | [] => none
  | c :: rest =>
    match lastDotIdx rest with
    | some i => some (i + 1)
    | none => if c = '.' then some 0 else none

/-- Model of Rust `Path::extension` on the file-name component of a path:
the portion after the last dot, where a dot at position zero (a leading
dot of a hidden file) does not count as a separator, so a name with no
dot past position zero has no extension. -/
def rustExtension (fileName : List Char) : Option (List Char) :=
  match lastDotIdx fileName with
  | none => none
  | some 0 => none
  | some (Nat.succ i) => some (fileName.drop (i + 2))

/-- Extension string of JPEG files, first form. -/
def jpegExt : List Char := "jpeg".data

/-- Extension string of JPEG files, second form. -/
def jpgExt : List Char := "jpg".data

/-- Extension string of PNG files. -/
def pngExt : List Char := "png".data

/-- Extension string of GIF files. -/
def gifExt : List Char := "gif".data

/-- Extension string of WebP files. -/
def webpExt : List Char := "webp".data

/-- Embedding of `ImageMediaType::from_path` (content.rs, lines 449-466).
A path is represented by its file-name component; `rustExtension` plays
the role of `path.extension().and_then(to_str)`, and the match arms
mirror the source's arms in order. -/
def ImageMediaType.from_path (path : List Char) :
    Except ImageMediaTypeParseError ImageMediaType :=
  match rustExtension path with
  | some extension =>
    if extension = jpegExt ∨ extension = jpgExt then
      Except.ok ImageMediaType.Jpeg
    else if extension = pngExt then Except.ok ImageMediaType.Png
    else if extension = gifExt then Except.ok ImageMediaType.Gif
    else if extension = webpExt then Except.ok ImageMediaType.Webp
    else Except.error (ImageMediaTypeParseError.NotSupported extension)
  | none => Except.error ImageMediaTypeParseError.NotFound

/-- Minimal JSON value model for the wire format. -/
inductive Json
  | str (s : List Char)
  | arr (elements : List Json)
  | obj (fields : List (List Char × Json))

/-- Key and tag string "type". -/
def typeKey : List Char := "type".data

/-- Key and tag string "text". -/
def textStr : List Char := "text".data

/-- Tag string "image". -/
def imageStr : List Char := "image".data

/-- Tag string "text_delta". -/
def textDeltaStr : List Char := "text_delta".data

/-- Tag string "base64". -/
def base64Str : List Char := "base64".data

/-- Key string "media_type". -/
def mediaTypeKey : List Char := "media_type".data

/-- Key string "data". -/
def dataKey : List Char := "data".data

/-- Key string "source". -/
def sourceKey : List Char := "source".data

/-- MIME string "image/jpeg". -/
def jpegMime : List Char := "image/jpeg".data

/-- MIME string "image/png". -/
def pngMime : List Char := "image/png".data

/-- MIME string "image/gif". -/
def gifMime : List Char := "image/gif".data

/-- MIME string "image/webp". -/
def webpMime : List Char := "image/webp".data

/-- First value bound to a key in a JSON object's field list. -/
def lookupField (key : List Char) : List (List Char × Json) → Option Json
  | [] => none
  | (k, v) :: rest => if k = key then some v else lookupField key rest

/-- Serialization of `ContentType` (mapping given by the
`impl_enum_string_serialization` invocation in content.rs). -/
def ContentType.toJson : ContentType → Json
  | ContentType.Text => Json.str textStr
  | ContentType.Image => Json.str imageStr
  | ContentType.TextDelta => Json.str textDeltaStr

/-- Deserialization of `ContentType` (inverse string mapping). -/
def ContentType.fromJson : Json → Option ContentType
  | Json.str s =>
    if s = textStr then some ContentType.Text
    else if s = imageStr then some ContentType.Image
    else if s = textDeltaStr then some ContentType.TextDelta
    else none
  | _ => none

/-- Serialization of `ImageSourceType`. -/
def ImageSourceType.toJson : ImageSourceType → Json
  | ImageSourceType.Base64 => Json.str base64Str

/-- Deserialization of `ImageSourceType`. -/
def ImageSourceType.fromJson : Json → Option ImageSourceType
  | Json.str s =>
    if s = base64Str then some ImageSourceType.Base64 else none
  | _ => none

/-- Serialization of `ImageMediaType`. -/
def ImageMediaType.toJson : ImageMediaType → Json
  | ImageMediaType.Jpeg => Json.str jpegMime
  | ImageMediaType.Png => Json.str pngMime
  | ImageMediaType.Gif => Json.str gifMime
  | ImageMediaType.Webp => Json.str webpMime

/-- Deserialization of `ImageMediaType`. -/
def ImageMediaType.fromJson : Json → Option ImageMediaType
  | Json.str s =>
    if s = jpegMime then some ImageMediaType.Jpeg
    else if s = pngMime then some ImageMediaType.Png
    else if s = gifMime then some ImageMediaType.Gif
    else if s = webpMime then some ImageMediaType.Webp
    else none
  | _ => none

/-- Serialization of `TextContentBlock` (serde derive in content.rs, the
`_type` field renamed to "type"). -/
def TextContentBlock.toJson (b : TextContentBlock) : Json :=
  Json.obj [(typeKey, b._type.toJson), (textStr, Json.str b.text)]

/-- Deserialization of `TextContentBlock`. -/
def TextContentBlock.fromJson (j : Json) : Option TextContentBlock :=
  match j with
  | Json.obj fields =>
    match lookupField typeKey fields, lookupField textStr fields with
    | some tj, some (Json.str t) =>
      (ContentType.fromJson tj).map (fun ct => { _type := ct, text := t })
    | _, _ => none
  | _ => none

/-- Serialization of `ImageContentSource` (serde derive in content.rs,
fields in declaration order, `_type` renamed to "type"). -/
def ImageContentSource.toJson (s : ImageContentSource) : Json :=
  Json.obj [(typeKey, s._type.toJson), (mediaTypeKey, s.media_type.toJson),
    (dataKey, Json.str s.data)]

/-- Deserialization of `ImageContentSource`. -/
def ImageContentSource.fromJson (j : Json) : Option ImageContentSource :=
  match j with
  | Json.obj fields =>
    match lookupField typeKey fields, lookupField mediaTypeKey fields,
        lookupField dataKey fields with
    | some tj, some mj, some (Json.str d) =>
      match ImageSourceType.fromJson tj, ImageMediaType.fromJson mj with
      | some st, some mt =>
        some { _type := st, media_type := mt, data := d }
      | _, _ => none
    | _, _, _ => none
  | _ => none

/-- Serialization of `ImageContentBlock` (serde derive in content.rs). -/
def ImageContentBlock.toJson (b : ImageContentBlock) : Json :=
  Json.obj [(typeKey, b._type.toJson), (sourceKey, b.source.toJson)]

/-- Deserialization of `ImageContentBlock`. -/
def ImageContentBlock.fromJson (j : Json) : Option ImageContentBlock :=
  match j with
  | Json.obj fields =>
    match lookupField typeKey fields, lookupField sourceKey fields with
    | some tj, some sj =>
      match ContentType.fromJson tj, ImageContentSource.fromJson sj with
      | some ct, some src => some { _type := ct, source := src }
      | _, _ => none
    | _, _ => none
  | _ => none

/-- Modelled from the spec: serialization of `ContentBlock` (the
`impl_enum_struct_serialization` macro is not among the provided
sources) — each variant serializes as its inner struct, which carries
the discriminant field "type" first. -/
def ContentBlock.toJson : ContentBlock → Json
  | ContentBlock.Text b => b.toJson
  | ContentBlock.Image b => b.toJson

/-- Modelled from the spec: deserialization of `ContentBlock` —
"per-element discriminant dispatch" on the "type" field, which must
equal "text" or "image". -/
def ContentBlock.fromJson (j : Json) : Option ContentBlock :=
  match j with
  | Json.obj fields =>
    match lookupField typeKey fields with
    | some (Json.str tag) =>
      if tag = textStr then
        (TextContentBlock.fromJson j).map ContentBlock.Text
      else if tag = imageStr then
        (ImageContentBlock.fromJson j).map ContentBlock.Image
      else none
    | _ => none
  | _ => none

/-- Deserialization of a list of blocks, element by element, failing if
any element fails. -/
def decodeBlocks : List Json → Option (List ContentBlock)
  | [] => some []
  | j :: rest =>
    match ContentBlock.fromJson j with
    | none => none
    | some b => (decodeBlocks rest).map (fun bs => b :: bs)

/-- Modelled from the spec: serialization of `Content` (the
`impl_enum_with_string_or_array_serialization` macro is not among the
provided sources) — "wire representation collapses to a bare string when
SingleText, and to a JSON array of tagged objects when MultipleBlocks". -/
def Content.toJson : Content → Json
  | Content.SingleText t => Json.str t
  | Content.MultipleBlocks bs => Json.arr (bs.map ContentBlock.toJson)

/-- Modelled from the spec: deserialization of `Content` — "a bare
string → SingleText; an array → MultipleBlocks, applying per-element
discriminant dispatch". -/
def Content.fromJson : Json → Option Content
  | Json.str t => some (Content.SingleText t)
  | Json.arr es => (decodeBlocks es).map Content.MultipleBlocks
  | Json.obj _ => none

/-- True when a block's recorded content type matches its variant, as it
does for every block built by the crate's constructors. -/
def ContentBlock.wellTagged : ContentBlock → Bool
  | ContentBlock.Text b =>
    match b._type with
    | ContentType.Text => true
    | _ => false
  | ContentBlock.Image b =>
    match b._type with
    | ContentType.Image => true
    | _ => false

/-- True when every block of the content is well tagged. -/
def Content.wellTagged : Content → Bool
  | Content.SingleText _ => true
  | Content.MultipleBlocks bs => bs.all ContentBlock.wellTagged

/-- Characterization of `findSub`: it returns `some n` exactly when the
pattern occurs at position `n` and at no earlier position. -/
theorem findSub_some_iff (pat : List Char) :
    ∀ (l : List Char) (n : Nat),
      findSub pat l = some n ↔
        (pat <+: l.drop n ∧ ∀ m, m < n → ¬ pat <+: l.drop m) := by
  intro l
  induction l with
  | nil =>
    intro n
    simp only [findSub, List.isPrefixOf_iff_prefix, List.drop_nil]
    by_cases h : pat <+: ([] : List Char)
    · rw [if_pos h]
      constructor
      · intro h0
        simp only [Option.some.injEq] at h0
        subst h0
        exact ⟨h, fun m hm => absurd hm (Nat.not_lt_zero m)⟩
      · rintro ⟨h1, h2⟩
        by_cases hn : n = 0
        · subst hn; rfl
        · exact absurd h (h2 0 (Nat.pos_of_ne_zero hn))
    · rw [if_neg h]
      constructor
      · intro h0; cases h0
      · rintro ⟨h1, _⟩; exact absurd h1 h
  | cons c rest ih =>
    intro n
    simp only [findSub, List.isPrefixOf_iff_prefix]
    by_cases hp : pat <+: (c :: rest)
    · rw [if_pos hp]
      constructor
      · intro h0
        simp only [Option.some.injEq] at h0
        subst h0
        exact ⟨by simpa using hp, fun m hm => absurd hm (Nat.not_lt_zero m)⟩
      · rintro ⟨h1, h2⟩
        by_cases hn : n = 0
        · subst hn; rfl
        · exact absurd (by simpa using hp) (h2 0 (Nat.pos_of_ne_zero hn))
    · rw [if_neg hp]
      constructor
      · intro h0
        obtain ⟨k, hk, rfl⟩ := Option.map_eq_some'.mp h0
        obtain ⟨h1, h2⟩ := (ih k).mp hk
        refine ⟨by simpa using h1, ?_⟩
        intro m hm
        cases m with
        | zero => simpa using hp
        | succ j =>
          simpa using h2 j (by omega)
      · rintro ⟨h1, h2⟩
        cases n with
        | zero => exact absurd (by simpa using h1) hp
        | succ k =>
          have hk : findSub pat rest = some k := by
            refine (ih k).mpr ⟨by simpa using h1, ?_⟩
            intro j hj
            simpa using h2 (j + 1) (by omega)
          rw [hk]
          rfl

/-- Characterization of `findSub` returning `none`: the pattern occurs at
no position. -/
theorem findSub_none_iff (pat : List Char) :
    ∀ l : List Char, findSub pat l = none ↔ ∀ n, ¬ pat <+: l.drop n := by
  intro l
  induction l with
  | nil =>
    simp only [findSub, List.isPrefixOf_iff_prefix, List.drop_nil]
    by_cases h : pat <+: ([] : List Char)
    · rw [if_pos h]
      constructor
      · intro h0; cases h0
      · intro h0; exact absurd h (h0 0)
    · rw [if_neg h]
      exact ⟨fun _ _ => h, fun _ => rfl⟩
  | cons c rest ih =>
    simp only [findSub, List.isPrefixOf_iff_prefix]
    by_cases hp : pat <+: (c :: rest)
    · rw [if_pos hp]
      constructor
      · intro h0; cases h0
      · intro h0; exact absurd (by simpa using hp) (h0 0)
    · rw [if_neg hp]
      constructor
      · intro h0 n
        have hr : findSub pat rest = none := by
          cases he : findSub pat rest with
          | none => rfl
          | some k => rw [he] at h0; cases h0
        cases n with
        | zero => simpa using hp
        | succ j => simpa using (ih.mp hr) j
      · intro h0
        have hr : findSub pat rest = none :=
          ih.mpr fun j => by simpa using h0 (j + 1)
        rw [hr]
        rfl

/-- A pattern is an infix of a list exactly when it is a prefix of some
tail of the list. -/
theorem occurs_iff_exists_drop (pat l : List Char) :
    pat <:+: l ↔ ∃ n, pat <+: l.drop n := by
  constructor
  · rintro ⟨s, t, rfl⟩
    refine ⟨s.length, ?_⟩
    rw [List.append_assoc, List.drop_left']
    · exact List.prefix_append pat t
    · rfl
  · rintro ⟨n, t, ht⟩
    exact ⟨l.take n, t, by rw [List.append_assoc, ht, List.take_append_drop]⟩

/-- Slicing a list of the form `P ++ (A ++ S)` from position `P.length`
to position `P.length + A.length` yields exactly `A`. -/
theorem slice_append (P A S : List Char) (n : Nat)
    (hn : n = P.length + A.length) :
    (((P ++ (A ++ S)).take n).drop P.length) = A := by
  subst hn
  rw [show P ++ (A ++ S) = (P ++ A) ++ S from (List.append_assoc P A S).symm]
  rw [List.take_left' (by simp)]
  exact List.drop_left P A

/-- C3: `flatten_into_text` returns `Ok(text)` on `SingleText(text)`; on
`MultipleBlocks` it returns `Ok` of the first block's text if that block
is a `Text` block, fails with `NotFoundTargetBlock` if the first block is
not a `Text` block, and fails with `Empty` on an empty block sequence. -/
theorem flatten_into_text_spec (t : List Char) (b : ContentBlock)
    (bs : List ContentBlock) :
    (Content.SingleText t).flatten_into_text = Except.ok t ∧
    (Content.MultipleBlocks []).flatten_into_text =
      Except.error ContentFlatteningError.Empty ∧
    (Content.MultipleBlocks (b :: bs)).flatten_into_text =
      (match b with
       | ContentBlock.Text tb => Except.ok tb.text
       | ContentBlock.Image _ =>
         Except.error ContentFlatteningError.NotFoundTargetBlock) := by
  refine ⟨rfl, rfl, ?_⟩
  cases b <;> rfl

/-- C4: `flatten_into_image_source` fails with `NotFoundTargetBlock` on
`SingleText`; on `MultipleBlocks` it returns `Ok` of the first block's
image source if that block is an `Image` block and fails with
`NotFoundTargetBlock` otherwise; and on an empty block sequence both
flatten methods fail with `Empty`. -/
theorem flatten_into_image_source_spec (t : List Char) (b : ContentBlock)
    (bs : List ContentBlock) :
    (Content.SingleText t).flatten_into_image_source =
      Except.error ContentFlatteningError.NotFoundTargetBlock ∧
    (Content.MultipleBlocks (b :: bs)).flatten_into_image_source =
      (match b with
       | ContentBlock.Image ib => Except.ok ib.source
       | ContentBlock.Text _ =>
         Except.error ContentFlatteningError.NotFoundTargetBlock) ∧
    (Content.MultipleBlocks []).flatten_into_image_source =
      Except.error ContentFlatteningError.Empty ∧
    (Content.MultipleBlocks []).flatten_into_text =
      Except.error ContentFlatteningError.Empty := by
  refine ⟨rfl, ?_, rfl, rfl⟩
  cases b <;> rfl

/-- C6: constructing `Content` from a text (the `From<&str>` impl) and
flattening into text returns `Ok` of that same text. -/
theorem from_text_flatten_roundtrip (t : List Char) :
    (Content.from_text t).flatten_into_text = Except.ok t := rfl

/-- C7: constructing `Content` from an image source (the
`From<ImageContentSource>` impl) and flattening into an image source
returns `Ok` of that same source. -/
theorem from_image_flatten_roundtrip (s : ImageContentSource) :
    (Content.from_image s).flatten_into_image_source = Except.ok s := rfl

/-- C5: `exclude_function_calls` runs flatten, extract, decode in that
order and fails fast: a flatten failure propagates as that flatten
error, an extraction miss yields `XmlNotFound`, a decode failure yields
the decoding error, and on all successes the decoded value is returned;
in particular a `SingleText` whose text contains no start delimiter
fails with `XmlNotFound`. -/
theorem exclude_function_calls_stages (c : Content) :
    (∀ e, c.flatten_into_text = Except.error e →
      c.exclude_function_calls =
        Except.error (FunctionCallsExcludingError.ContentFlattening e)) ∧
    (∀ t, c.flatten_into_text = Except.ok t →
      extract_first_function_calls t = none →
      c.exclude_function_calls =
        Except.error FunctionCallsExcludingError.XmlNotFound) ∧
    (∀ t x e, c.flatten_into_text = Except.ok t →
      extract_first_function_calls t = some x →
      FunctionCalls.deserialize x = Except.error e →
      c.exclude_function_calls =
        Except.error (FunctionCallsExcludingError.FunctionCallsDecoding e)) ∧
    (∀ t x fc, c.flatten_into_text = Except.ok t →
      extract_first_function_calls t = some x →
      FunctionCalls.deserialize x = Except.ok fc →
      c.exclude_function_calls = Except.ok fc) ∧
    (∀ t, c = Content.SingleText t → ¬ start_tag <:+: t →
      c.exclude_function_calls =
        Except.error FunctionCallsExcludingError.XmlNotFound) := by
  refine ⟨?_, ?_, ?_, ?_, ?_⟩
  · intro e he
    simp only [Content.exclude_function_calls, he]
  · intro t ht hx
    simp only [Content.exclude_function_calls, ht, hx]
  · intro t x e ht hx hd
    simp only [Content.exclude_function_calls, ht, hx, hd]
  · intro t x fc ht hx hd
    simp only [Content.exclude_function_calls, ht, hx, hd]
  · intro t hc hs
    subst hc
    have hf : findSub start_tag t = none :=
      (findSub_none_iff start_tag t).mpr
        (fun n hn => hs ((occurs_iff_exists_drop start_tag t).mpr ⟨n, hn⟩))
    simp only [Content.exclude_function_calls, Content.flatten_into_text,
      extract_first_function_calls, hf]

/-- Witness for C5: a contentless block list propagates the `Empty`
flatten failure, and plain text with no delimiters fails with
`XmlNotFound`. -/
theorem exclude_function_calls_stages_witness :
    (Content.MultipleBlocks []).exclude_function_calls =
      Except.error (FunctionCallsExcludingError.ContentFlattening
        ContentFlatteningError.Empty) ∧
    (Content.SingleText ['p', 'l', 'a', 'i', 'n']).exclude_function_calls =
      Except.error FunctionCallsExcludingError.XmlNotFound := by
  constructor
  · exact (exclude_function_calls_stages (Content.MultipleBlocks [])).1
      ContentFlatteningError.Empty rfl
  · exact (exclude_function_calls_stages
      (Content.SingleText ['p', 'l', 'a', 'i', 'n'])).2.2.2.2
      ['p', 'l', 'a', 'i', 'n'] rfl (by decide)

/-- C1: on text that decomposes as `p ++ start_tag ++ m ++ end_tag ++ s`
where the start delimiter occurs nowhere before `p.length` (so this is
its first occurrence) and the end delimiter occurs nowhere in the
remainder before `m.length` (so this is its first occurrence after the
start delimiter), extraction returns exactly
`start_tag ++ m ++ end_tag`, both delimiters included.  `m` may itself
contain further start delimiters: they have no effect. -/
theorem extract_first_well_formed_region (p m s : List Char)
    (h1 : ∀ i, i < p.length →
      ¬ start_tag <+: (p ++ (start_tag ++ (m ++ (end_tag ++ s)))).drop i)
    (h2 : ∀ i, i < m.length → ¬ end_tag <+: (m ++ (end_tag ++ s)).drop i) :
    extract_first_function_calls (p ++ (start_tag ++ (m ++ (end_tag ++ s)))) =
      some (start_tag ++ (m ++ end_tag)) := by
  have hfind1 : findSub start_tag (p ++ (start_tag ++ (m ++ (end_tag ++ s)))) =
      some p.length := by
    refine (findSub_some_iff _ _ _).mpr ⟨?_, h1⟩
    rw [List.drop_left' rfl]
    exact ⟨m ++ (end_tag ++ s), rfl⟩
  have hdrop : (p ++ (start_tag ++ (m ++ (end_tag ++ s)))).drop
      (p.length + start_tag.length) = m ++ (end_tag ++ s) := by
    rw [show p ++ (start_tag ++ (m ++ (end_tag ++ s))) =
        (p ++ start_tag) ++ (m ++ (end_tag ++ s)) from
      (List.append_assoc p start_tag (m ++ (end_tag ++ s))).symm]
    exact List.drop_left' (by simp)
  have hfind2 : findSub end_tag (m ++ (end_tag ++ s)) = some m.length := by
    refine (findSub_some_iff _ _ _).mpr ⟨?_, h2⟩
    rw [List.drop_left' rfl]
    exact ⟨s, rfl⟩
  simp only [extract_first_function_calls, hfind1, hdrop, hfind2]
  have htext : p ++ (start_tag ++ (m ++ (end_tag ++ s))) =
      p ++ ((start_tag ++ (m ++ end_tag)) ++ s) := by
    simp [List.append_assoc]
  rw [htext]
  rw [slice_append p (start_tag ++ (m ++ end_tag)) s _
    (by simp only [List.length_append]; omega)]

/-- Witness for C1: a concrete text with one well-formed region (the
prefix and suffix contain no delimiters). -/
theorem extract_first_well_formed_region_witness :
    extract_first_function_calls
        (['a', 'b'] ++ (start_tag ++ (['x'] ++ (end_tag ++ ['c', 'd'])))) =
      some (start_tag ++ (['x'] ++ end_tag)) :=
  extract_first_well_formed_region ['a', 'b'] ['x'] ['c', 'd']
    (by decide) (by decide)

/-- C2: extraction returns `none` (a distinguishable "not found", not an
error) when a delimiter is missing: for text with no start delimiter at
all — even if an end delimiter is present — and for text whose first
start delimiter (at position `p.length`, with no earlier occurrence) is
followed by a remainder `r` containing no end delimiter. -/
theorem extract_missing_delimiter_none (text : List Char) :
    (¬ start_tag <:+: text → extract_first_function_calls text = none) ∧
    (∀ p r, text = p ++ (start_tag ++ r) →
      (∀ i, i < p.length → ¬ start_tag <+: text.drop i) →
      ¬ end_tag <:+: r →
      extract_first_function_calls text = none) := by
  constructor
  · intro h
    have hf : findSub start_tag text = none :=
      (findSub_none_iff _ _).mpr
        (fun n hn => h ((occurs_iff_exists_drop _ _).mpr ⟨n, hn⟩))
    simp only [extract_first_function_calls, hf]
  · intro p r htext h1 h2
    subst htext
    have hfind1 : findSub start_tag (p ++ (start_tag ++ r)) =
        some p.length := by
      refine (findSub_some_iff _ _ _).mpr ⟨?_, h1⟩
      rw [List.drop_left' rfl]
      exact ⟨r, rfl⟩
    have hdrop : (p ++ (start_tag ++ r)).drop
        (p.length + start_tag.length) = r := by
      rw [show p ++ (start_tag ++ r) = (p ++ start_tag) ++ r from
        (List.append_assoc p start_tag r).symm]
      exact List.drop_left' (by simp)
    have hfind2 : findSub end_tag r = none :=
      (findSub_none_iff _ _).mpr
        (fun n hn => h2 ((occurs_iff_exists_drop _ _).mpr ⟨n, hn⟩))
    simp only [extract_first_function_calls, hfind1, hdrop, hfind2]

/-- Witness for C2: an end delimiter alone yields `none`, and a start
delimiter with no end delimiter after it yields `none`. -/
theorem extract_missing_delimiter_none_witness :
    extract_first_function_calls end_tag = none ∧
    extract_first_function_calls ([] ++ (start_tag ++ ['t'])) = none := by
  constructor
  · exact (extract_missing_delimiter_none end_tag).1 (by decide)
  · exact (extract_missing_delimiter_none ([] ++ (start_tag ++ ['t']))).2
      [] ['t'] rfl (by decide) (by decide)

/-- C10: the extractor is total (a Lean function) and its slicing stays
in bounds: whenever it returns `some s`, the result `s` is a contiguous
substring of the input that begins with the exact start delimiter and
ends with the exact end delimiter. -/
theorem extract_first_function_calls_shape (text s : List Char)
    (h : extract_first_function_calls text = some s) :
    s <:+: text ∧ start_tag <+: s ∧ end_tag <:+ s := by
  cases hf : findSub start_tag text with
  | none =>
    simp only [extract_first_function_calls, hf] at h
    exact Option.noConfusion h
  | some b =>
    cases he : findSub end_tag (text.drop (b + start_tag.length)) with
    | none =>
      simp only [extract_first_function_calls, hf, he] at h
      exact Option.noConfusion h
    | some i =>
      simp only [extract_first_function_calls, hf, he, Option.some.injEq] at h
      subst h
      have hst : start_tag.length = 16 := rfl
      have het : end_tag.length = 17 := rfl
      have h1 : start_tag <+: text.drop b := ((findSub_some_iff _ _ _).mp hf).1
      have h2 : end_tag <+: (text.drop (b + start_tag.length)).drop i :=
        ((findSub_some_iff _ _ _).mp he).1
      rw [List.drop_drop] at h2
      obtain ⟨w, hw⟩ := h1
      obtain ⟨u, hu⟩ := h2
      have hwd : text.drop (b + start_tag.length) = w := by
        rw [← List.drop_drop, ← hw]
        exact List.drop_left start_tag w
      have hdi : w.drop i = end_tag ++ u := by
        rw [hu, ← hwd]
        exact List.drop_drop i (b + start_tag.length) text
      have hiw : i + end_tag.length ≤ w.length := by
        have hd := congrArg List.length hdi
        simp only [List.length_drop, List.length_append] at hd
        omega
      have hb : text.take b ++ (start_tag ++ w) = text := by
        rw [hw]
        exact List.take_append_drop b text
      have hwlen := congrArg List.length hw
      simp only [List.length_append, List.length_drop] at hwlen
      have hPlen : (text.take b).length = b := by
        simp only [List.length_take]
        omega
      have hw2 : w.take i ++ (end_tag ++ u) = w := by
        rw [← hdi]
        exact List.take_append_drop i w
      have htext : text = text.take b ++
          ((start_tag ++ (w.take i ++ end_tag)) ++ u) := by
        calc text = text.take b ++ (start_tag ++ w) := hb.symm
          _ = text.take b ++ (start_tag ++ (w.take i ++ (end_tag ++ u))) := by
              rw [hw2]
          _ = text.take b ++ ((start_tag ++ (w.take i ++ end_tag)) ++ u) := by
              simp [List.append_assoc]
      have hn : i + b + start_tag.length + end_tag.length =
          (text.take b).length + (start_tag ++ (w.take i ++ end_tag)).length := by
        simp only [List.length_append, List.length_take, hPlen]
        rw [Nat.min_eq_left (by omega)]
        omega
      have hslice := slice_append (text.take b)
        (start_tag ++ (w.take i ++ end_tag)) u
        (i + b + start_tag.length + end_tag.length) hn
      rw [hPlen] at hslice
      have hs : (text.take (i + b + start_tag.length + end_tag.length)).drop b =
          start_tag ++ (w.take i ++ end_tag) := by
        conv_lhs => rw [htext]
        exact hslice
      rw [hs]
      refine ⟨⟨text.take b, u, ?_⟩, ⟨w.take i ++ end_tag, rfl⟩,
        ⟨start_tag ++ w.take i, by rw [List.append_assoc]⟩⟩
      rw [List.append_assoc]
      exact htext.symm

/-- Witness for C10: a concrete extraction whose result is an infix of
the input beginning with the start delimiter and ending with the end
delimiter. -/
theorem extract_first_function_calls_shape_witness :
    (start_tag ++ end_tag) <:+: (start_tag ++ end_tag) ∧
    start_tag <+: (start_tag ++ end_tag) ∧
    end_tag <:+ (start_tag ++ end_tag) :=
  extract_first_function_calls_shape (start_tag ++ end_tag)
    (start_tag ++ end_tag) (by decide)

/-- A file name without a dot has no last-dot index. -/
theorem lastDotIdx_no_dot (l : List Char) (h : '.' ∉ l) :
    lastDotIdx l = none := by
  induction l with
  | nil => rfl
  | cons c rest ih =>
    simp only [List.mem_cons, not_or] at h
    simp only [lastDotIdx, ih h.2]
    rw [if_neg (fun hc => h.1 hc.symm)]

/-- The last dot of `stem ++ "." ++ ext` with a dot-free `ext` sits at
position `stem.length`. -/
theorem lastDotIdx_append_dot (stem ext : List Char) (h : '.' ∉ ext) :
    lastDotIdx (stem ++ ('.' :: ext)) = some stem.length := by
  induction stem with
  | nil =>
    simp [lastDotIdx, lastDotIdx_no_dot ext h]
  | cons c rest ih =>
    simp [lastDotIdx, ih]

/-- The extension of `stem ++ "." ++ ext` is `ext` whenever the stem is
nonempty and `ext` contains no dot. -/
theorem rustExtension_append (stem ext : List Char) (hstem : stem ≠ [])
    (h : '.' ∉ ext) : rustExtension (stem ++ ('.' :: ext)) = some ext := by
  obtain ⟨c, rest, rfl⟩ := List.exists_cons_of_ne_nil hstem
  unfold rustExtension
  rw [lastDotIdx_append_dot (c :: rest) ext h]
  show some (((c :: rest) ++ ('.' :: ext)).drop (rest.length + 2)) = some ext
  congr 1
  rw [show (c :: rest) ++ ('.' :: ext) = ((c :: rest) ++ ['.']) ++ ext by simp]
  exact List.drop_left' (by simp)

/-- A path whose file name has no dot past position zero has no
extension. -/
theorem rustExtension_no_dot (path : List Char) (h : '.' ∉ path.drop 1) :
    rustExtension path = none := by
  cases path with
  | nil => rfl
  | cons c rest =>
    have h' : '.' ∉ rest := by simpa using h
    unfold rustExtension
    simp only [lastDotIdx, lastDotIdx_no_dot rest h']
    by_cases hc : c = '.'
    · rw [if_pos hc]
    · rw [if_neg hc]

/-- C9: `from_path` maps extension "jpeg" or "jpg" to Jpeg, "png" to
Png, "gif" to Gif, "webp" to Webp; any other extension fails with
`NotSupported` carrying that extension; and a path with no extension
(no dot past position zero) fails with `NotFound`. -/
theorem from_path_extension_mapping (stem ext path : List Char)
    (hstem : stem ≠ []) (hext : '.' ∉ ext) (hpath : '.' ∉ path.drop 1) :
    ((ext = jpegExt ∨ ext = jpgExt) →
      ImageMediaType.from_path (stem ++ ('.' :: ext)) =
        Except.ok ImageMediaType.Jpeg) ∧
    (ext = pngExt →
      ImageMediaType.from_path (stem ++ ('.' :: ext)) =
        Except.ok ImageMediaType.Png) ∧
    (ext = gifExt →
      ImageMediaType.from_path (stem ++ ('.' :: ext)) =
        Except.ok ImageMediaType.Gif) ∧
    (ext = webpExt →
      ImageMediaType.from_path (stem ++ ('.' :: ext)) =
        Except.ok ImageMediaType.Webp) ∧
    (ext ≠ jpegExt → ext ≠ jpgExt → ext ≠ pngExt → ext ≠ gifExt →
      ext ≠ webpExt →
      ImageMediaType.from_path (stem ++ ('.' :: ext)) =
        Except.error (ImageMediaTypeParseError.NotSupported ext)) ∧
    ImageMediaType.from_path path =
      Except.error ImageMediaTypeParseError.NotFound := by
  have hre := rustExtension_append stem ext hstem hext
  refine ⟨?_, ?_, ?_, ?_, ?_, ?_⟩
  · intro hj
    unfold ImageMediaType.from_path
    rw [hre]
    show (if ext = jpegExt ∨ ext = jpgExt then Except.ok ImageMediaType.Jpeg
      else if ext = pngExt then Except.ok ImageMediaType.Png
      else if ext = gifExt then Except.ok ImageMediaType.Gif
      else if ext = webpExt then Except.ok ImageMediaType.Webp
      else Except.error (ImageMediaTypeParseError.NotSupported ext)) =
      Except.ok ImageMediaType.Jpeg
    rw [if_pos hj]
  · intro hj
    subst hj
    unfold ImageMediaType.from_path
    rw [hre]
    rfl
  · intro hj
    subst hj
    unfold ImageMediaType.from_path
    rw [hre]
    rfl
  · intro hj
    subst hj
    unfold ImageMediaType.from_path
    rw [hre]
    rfl
  · intro h1 h2 h3 h4 h5
    unfold ImageMediaType.from_path
    rw [hre]
    show (if ext = jpegExt ∨ ext = jpgExt then Except.ok ImageMediaType.Jpeg
      else if ext = pngExt then Except.ok ImageMediaType.Png
      else if ext = gifExt then Except.ok ImageMediaType.Gif
      else if ext = webpExt then Except.ok ImageMediaType.Webp
      else Except.error (ImageMediaTypeParseError.NotSupported ext)) =
      Except.error (ImageMediaTypeParseError.NotSupported ext)
    rw [if_neg (not_or.mpr ⟨h1, h2⟩), if_neg h3, if_neg h4, if_neg h5]
  · unfold ImageMediaType.from_path
    rw [rustExtension_no_dot path hpath]

/-- Witness for C9: a "png" extension maps to Png and an extensionless
file name fails with `NotFound`. -/
theorem from_path_extension_mapping_witness :
    ImageMediaType.from_path (['i', 'm', 'g'] ++ ('.' :: pngExt)) =
      Except.ok ImageMediaType.Png ∧
    ImageMediaType.from_path ['i', 'm', 'g'] =
      Except.error ImageMediaTypeParseError.NotFound := by
  constructor
  · exact (from_path_extension_mapping ['i', 'm', 'g'] pngExt ['i', 'm', 'g']
      (by decide) (by decide) (by decide)).2.1 rfl
  · exact (from_path_extension_mapping ['i', 'm', 'g'] pngExt ['i', 'm', 'g']
      (by decide) (by decide) (by decide)).2.2.2.2.2

/-- Round trip of the `ContentType` string serialization. -/
theorem contentType_fromJson_toJson (ct : ContentType) :
    ContentType.fromJson (ContentType.toJson ct) = some ct := by
  cases ct <;> rfl

/-- Round trip of the `ImageContentSource` serialization. -/
theorem imageContentSource_fromJson_toJson (s : ImageContentSource) :
    ImageContentSource.fromJson (ImageContentSource.toJson s) = some s := by
  obtain ⟨st, mt, d⟩ := s
  cases st
  cases mt <;> rfl

/-- Round trip of the `TextContentBlock` serialization. -/
theorem textContentBlock_fromJson_toJson (b : TextContentBlock) :
    TextContentBlock.fromJson (TextContentBlock.toJson b) = some b := by
  obtain ⟨ty, tx⟩ := b
  cases ty <;> rfl

/-- Round trip of the `ImageContentBlock` serialization. -/
theorem imageContentBlock_fromJson_toJson (b : ImageContentBlock) :
    ImageContentBlock.fromJson (ImageContentBlock.toJson b) = some b := by
  obtain ⟨ty, st, mt, d⟩ := b
  cases ty <;> cases st <;> cases mt <;> rfl

/-- Round trip of the `ContentBlock` serialization for well-tagged
blocks: the discriminant dispatch recognizes the serialized tag. -/
theorem contentBlock_fromJson_toJson (b : ContentBlock)
    (h : ContentBlock.wellTagged b = true) :
    ContentBlock.fromJson (ContentBlock.toJson b) = some b := by
  cases b with
  | Text tb =>
    obtain ⟨ty, tx⟩ := tb
    cases ty with
    | Text => rfl
    | Image => exact Bool.noConfusion h
    | TextDelta => exact Bool.noConfusion h
  | Image ib =>
    obtain ⟨ty, st, mt, d⟩ := ib
    cases ty with
    | Image =>
      cases st
      cases mt <;> rfl
    | Text => exact Bool.noConfusion h
    | TextDelta => exact Bool.noConfusion h

/-- Round trip of block-list deserialization over serialized well-tagged
blocks. -/
theorem decodeBlocks_map_toJson (bs : List ContentBlock)
    (h : bs.all ContentBlock.wellTagged = true) :
    decodeBlocks (bs.map ContentBlock.toJson) = some bs := by
  induction bs with
  | nil => rfl
  | cons b rest ih =>
    simp only [List.all_cons, Bool.and_eq_true] at h
    simp only [List.map_cons, decodeBlocks,
      contentBlock_fromJson_toJson b h.1, ih h.2, Option.map_some']

/-- C8 (amended): every `SingleText` serializes to a bare JSON string,
every `MultipleBlocks` serializes to a JSON array of the serialized
blocks — each a tagged object — and serialization round-trips to an
equal value of the same variant for every `Content` whose blocks carry
the discriminant matching their variant (as every block built by the
crate's constructors does). -/
theorem content_serialization_shape_and_roundtrip :
    (∀ t, (Content.SingleText t).toJson = Json.str t) ∧
    (∀ bs, (Content.MultipleBlocks bs).toJson =
      Json.arr (bs.map ContentBlock.toJson)) ∧
    (∀ b : ContentBlock, ∃ tag fields,
      ContentBlock.toJson b = Json.obj ((typeKey, tag) :: fields)) ∧
    (∀ c : Content, c.wellTagged = true →
      Content.fromJson (Content.toJson c) = some c) := by
  refine ⟨fun t => rfl, fun bs => rfl, ?_, ?_⟩
  · intro b
    cases b with
    | Text tb =>
      exact ⟨tb._type.toJson, [(textStr, Json.str tb.text)], rfl⟩
    | Image ib =>
      exact ⟨ib._type.toJson, [(sourceKey, ib.source.toJson)], rfl⟩
  · intro c h
    cases c with
    | SingleText t => rfl
    | MultipleBlocks bs =>
      simp only [Content.wellTagged] at h
      simp only [Content.toJson, Content.fromJson,
        decodeBlocks_map_toJson bs h, Option.map_some']

/-- Counterexample for C8 as stated: a `Text` block whose recorded
content type is `TextDelta` (constructible, since the fields are public)
serializes with tag "text_delta", which the discriminant dispatch
rejects, so serialization does not round-trip for it. -/
theorem content_serialization_roundtrip_cex :
    Content.fromJson (Content.toJson (Content.MultipleBlocks
      [ContentBlock.Text { _type := ContentType.TextDelta, text := [] }])) ≠
    some (Content.MultipleBlocks
      [ContentBlock.Text { _type := ContentType.TextDelta, text := [] }]) := by
  decide

/-- Witness for C8 (amended): a concrete well-tagged two-block value
round-trips. -/
theorem content_serialization_roundtrip_witness :
    Content.fromJson (Content.toJson (Content.MultipleBlocks
      [ContentBlock.Text (TextContentBlock.new ['h', 'i']),
       ContentBlock.Image (ImageContentBlock.new
         (ImageContentSource.base64 ImageMediaType.Png ['d']))])) =
    some (Content.MultipleBlocks
      [ContentBlock.Text (TextContentBlock.new ['h', 'i']),
       ContentBlock.Image (ImageContentBlock.new
         (ImageContentSource.base64 ImageMediaType.Png ['d']))]) :=
  content_serialization_shape_and_roundtrip.2.2.2
    (Content.MultipleBlocks
      [ContentBlock.Text (TextContentBlock.new ['h', 'i']),
       ContentBlock.Image (ImageContentBlock.new
         (ImageContentSource.base64 ImageMediaType.Png ['d']))])
    (by decide)
